import Mathlib

/-!
Verification of the opencost-cloudcost-exporter core against its specification.

This file shallowly embeds the claim-relevant parts of the repository:

- pkg/types (CloudCostResponse and friends),
- pkg/cache/cache.go (the TTL cache with stale-data support),
- the collector (CloudCostCollector: Collect, fetchAndCache, emitCostMetrics,
  emitCost),
- pkg/client/client.go (Client.FetchCloudCosts retry loop).

Modelling conventions:

- Go time.Time / time.Duration values become Nat time stamps and durations;
  time.Since(fetchedAt) at instant now becomes now - fetchedAt.
- Go float64 cost values become ℚ, exact arithmetic standing in for float64
  so that sums are exact.
- Go maps become association lists (List (K × V)) in iteration order; Go map
  indexing m[k] with zero-value default becomes a lookup with a default.
- Emission into a prometheus channel becomes an accumulated List Metric.
- Prometheus counters that the claims mention (scrape errors, cache hits and
  misses) become Nat fields of the corresponding state.
- The collector mutex serializes Collect bodies and the flag-clearing epilogue
  of the background goroutine, so the concurrent system is modelled as a
  transition system whose atomic steps are exactly those mutex-protected
  regions, plus a ghost count of in-flight refresh goroutines.
-/

set_option autoImplicit false

namespace OpenCostExporter

/-- Generic association-list lookup, modelling a Go map read. -/
def findEntry {K V : Type} [DecidableEq K] : List (K × V) → K → Option V
  | [], _ => none
  | (k', v) :: rest, k => if k' = k then some v else findEntry rest k

/-- Generic association-list update, modelling a Go map write: replaces the
binding in place when the key is present, appends it otherwise. -/
def setEntry {K V : Type} [DecidableEq K] : List (K × V) → K → V → List (K × V)
  | [], k, v => [(k, v)]
  | (k', v') :: rest, k, v =>
    if k' = k then (k, v) :: rest else (k', v') :: setEntry rest k v

/-- CostValue from pkg/types: a cost amount with Kubernetes attribution. -/
structure CostValue where
  Cost : ℚ
  KubernetesPercent : ℚ
deriving DecidableEq

/-- Window from pkg/types: time window of the cost data, as opaque strings. -/
structure Window where
  start : String
  «end» : String
deriving DecidableEq

/-- CloudCostProperties from pkg/types. -/
structure CloudCostProperties where
  ProviderID : String
  Provider : String
  AccountID : String
  AccountName : String
  InvoiceEntityID : String
  InvoiceEntityName : String
  AvailabilityZone : String
  RegionID : String
  Service : String
  Category : String
  Labels : List (String × String)
deriving DecidableEq

/-- CloudCostItem from pkg/types. -/
structure CloudCostItem where
  Properties : CloudCostProperties
  Window : Window
  ListCost : CostValue
  NetCost : CostValue
  AmortizedNetCost : CostValue
  InvoicedCost : CostValue
  AmortizedCost : CostValue
deriving DecidableEq

/-- CloudCostSet from pkg/types: Go map modelled as an association list in
iteration order. -/
structure CloudCostSet where
  CloudCosts : List (String × CloudCostItem)
deriving DecidableEq

/-- CloudCostData from pkg/types. -/
structure CloudCostData where
  Sets : List CloudCostSet
deriving DecidableEq

/-- CloudCostResponse from pkg/types. -/
structure CloudCostResponse where
  Code : Int
  Data : CloudCostData
deriving DecidableEq

/-- Cache from pkg/cache/cache.go: data pointer, fetch time stamp, the two
configured durations, and the hit and miss counters. -/
structure Cache where
  data : Option CloudCostResponse
  fetchedAt : Nat
  ttl : Nat
  maxStale : Nat
  hits : Nat
  misses : Nat
deriving DecidableEq

/-- cache.New: a cache with the given ttl and maxStale and no data. -/
def Cache.New (ttl maxStale : Nat) : Cache :=
  { data := none, fetchedAt := 0, ttl := ttl, maxStale := maxStale
    hits := 0, misses := 0 }

/-- Cache.Get from pkg/cache/cache.go, at time instant now.  Returns the
(data, isStale, ok) triple together with the cache with updated counters. -/
def Cache.Get (c : Cache) (now : Nat) :
    (Option CloudCostResponse × Bool × Bool) × Cache :=
  match c.data with
  | none => ((none, false, false), { c with misses := c.misses + 1 })
  | some d =>
    let age := now - c.fetchedAt
    if age ≤ c.ttl then
      ((some d, false, true), { c with hits := c.hits + 1 })
    else if age ≤ c.ttl + c.maxStale then
      ((some d, true, true), { c with hits := c.hits + 1 })
    else
      ((none, false, false), { c with misses := c.misses + 1 })

/-- Cache.Set from pkg/cache/cache.go: store data, stamp fetchedAt with now. -/
def Cache.Set (c : Cache) (d : CloudCostResponse) (now : Nat) : Cache :=
  { c with data := some d, fetchedAt := now }

/-- An empty CloudCostResponse, used by concrete witnesses. -/
def sampleResponse : CloudCostResponse :=
  { Code := 200, Data := { Sets := [] } }

/-- C1: Cache.Get classifies by the age a = now - fetchedAt: with no entry ever
set it returns (none, false, false) and increments misses; with a ≤ ttl it
returns (data, false, true) and increments hits; with ttl < a ≤ ttl + maxStale
it returns (data, true, true) and increments hits; with a > ttl + maxStale it
returns (none, false, false) and increments misses. -/
theorem cache_get_classification (c : Cache) (now : Nat) :
    (c.data = none →
      c.Get now = ((none, false, false), { c with misses := c.misses + 1 })) ∧
    (∀ d, c.data = some d → now - c.fetchedAt ≤ c.ttl →
      c.Get now = ((some d, false, true), { c with hits := c.hits + 1 })) ∧
    (∀ d, c.data = some d → c.ttl < now - c.fetchedAt →
      now - c.fetchedAt ≤ c.ttl + c.maxStale →
      c.Get now = ((some d, true, true), { c with hits := c.hits + 1 })) ∧
    (∀ d, c.data = some d → c.ttl + c.maxStale < now - c.fetchedAt →
      c.Get now = ((none, false, false), { c with misses := c.misses + 1 })) := by
  refine ⟨fun h => ?_, fun d h h1 => ?_, fun d h h1 h2 => ?_, fun d h h1 => ?_⟩
  · simp [Cache.Get, h]
  · simp [Cache.Get, h, h1]
  · have hn : ¬ (now - c.fetchedAt ≤ c.ttl) := by omega
    simp [Cache.Get, h, hn, h2]
  · have hn : ¬ (now - c.fetchedAt ≤ c.ttl) := by omega
    have hn2 : ¬ (now - c.fetchedAt ≤ c.ttl + c.maxStale) := by omega
    simp [Cache.Get, h, hn, hn2]

/-- Witness for C1: the four classifications at concrete cache states with
ttl = 10, maxStale = 5, exercised at ages 3, 7, 12 and 20. -/
theorem cache_get_classification_witness :
    (Cache.Get ⟨none, 0, 10, 5, 0, 0⟩ 3 =
      ((none, false, false), ⟨none, 0, 10, 5, 0, 1⟩)) ∧
    (Cache.Get ⟨some sampleResponse, 0, 10, 5, 0, 0⟩ 7 =
      ((some sampleResponse, false, true), ⟨some sampleResponse, 0, 10, 5, 1, 0⟩)) ∧
    (Cache.Get ⟨some sampleResponse, 0, 10, 5, 0, 0⟩ 12 =
      ((some sampleResponse, true, true), ⟨some sampleResponse, 0, 10, 5, 1, 0⟩)) ∧
    (Cache.Get ⟨some sampleResponse, 0, 10, 5, 0, 0⟩ 20 =
      ((none, false, false), ⟨some sampleResponse, 0, 10, 5, 0, 1⟩)) :=
  ⟨(cache_get_classification _ 3).1 rfl,
   (cache_get_classification _ 7).2.1 sampleResponse rfl (by norm_num),
   (cache_get_classification _ 12).2.2.1 sampleResponse rfl (by norm_num)
     (by norm_num),
   (cache_get_classification _ 20).2.2.2 sampleResponse rfl (by norm_num)⟩

/-- costKey from the collector's emitCostMetrics: the aggregation grouping
key. -/
structure CostKey where
  providerID : String
  accountID : String
  service : String
  category : String
  region : String
  availabilityZone : String
  owner : String
  environment : String
  cluster : String
deriving DecidableEq

/-- Go map read with the zero-value default: item.Properties.Labels[k]. -/
def lookupLabel (labels : List (String × String)) (k : String) : String :=
  (findEntry labels k).getD ""

/-- The costKey built from an item in emitCostMetrics: region comes from
RegionID, and owner, environment and cluster come from the free-form label
map, defaulting to the empty string. -/
def mkKey (item : CloudCostItem) : CostKey :=
  { providerID := item.Properties.ProviderID
    accountID := item.Properties.AccountID
    service := item.Properties.Service
    category := item.Properties.Category
    region := item.Properties.RegionID
    availabilityZone := item.Properties.AvailabilityZone
    owner := lookupLabel item.Properties.Labels "owner"
    environment := lookupLabel item.Properties.Labels "environment"
    cluster := lookupLabel item.Properties.Labels "cluster" }

/-- aggregatedCost struct from the collector. -/
structure AggregatedCost where
  listCost : ℚ
  netCost : ℚ
  amortizedNetCost : ℚ
  invoicedCost : ℚ
  amortizedCost : ℚ
  kubePercent : ℚ
deriving DecidableEq

/-- The zero value of aggregatedCost, as allocated by new(aggregatedCost). -/
def zeroAgg : AggregatedCost := ⟨0, 0, 0, 0, 0, 0⟩

/-- One round of the accumulation statements in emitCostMetrics: the five
cost figures are added, the Kubernetes percent is overwritten from the list
cost figure. -/
def aggAdd (old : AggregatedCost) (item : CloudCostItem) : AggregatedCost :=
  { listCost := old.listCost + item.ListCost.Cost
    netCost := old.netCost + item.NetCost.Cost
    amortizedNetCost := old.amortizedNetCost + item.AmortizedNetCost.Cost
    invoicedCost := old.invoicedCost + item.InvoicedCost.Cost
    amortizedCost := old.amortizedCost + item.AmortizedCost.Cost
    kubePercent := item.ListCost.KubernetesPercent }

/-- Body of the item loop in emitCostMetrics: create the entry if absent
(zero value), then accumulate. -/
def addItem (acc : List (CostKey × AggregatedCost)) (item : CloudCostItem) :
    List (CostKey × AggregatedCost) :=
  setEntry acc (mkKey item)
    (aggAdd ((findEntry acc (mkKey item)).getD zeroAgg) item)

/-- All items across all sets of the response, in iteration order. -/
def allItems (data : CloudCostResponse) : List CloudCostItem :=
  data.Data.Sets.flatMap (fun s => s.CloudCosts.map Prod.snd)

/-- The aggregation pass of emitCostMetrics. -/
def aggregate (data : CloudCostResponse) : List (CostKey × AggregatedCost) :=
  (allItems data).foldl addItem []

theorem findEntry_setEntry_self {K V : Type} [DecidableEq K]
    (l : List (K × V)) (k : K) (v : V) :
    findEntry (setEntry l k v) k = some v := by
  induction l with
  | nil => simp [setEntry, findEntry]
  | cons p t ih =>
    by_cases h : p.1 = k
    · simp [setEntry, findEntry, h]
    · simp [setEntry, findEntry, h, ih]

theorem findEntry_setEntry_other {K V : Type} [DecidableEq K]
    (l : List (K × V)) (k k' : K) (v : V) (h : k ≠ k') :
    findEntry (setEntry l k v) k' = findEntry l k' := by
  induction l with
  | nil => simp [setEntry, findEntry, h]
  | cons p t ih =>
    by_cases hp : p.1 = k
    · simp [setEntry, findEntry, hp, h]
    · by_cases hp' : p.1 = k'
      · simp [setEntry, findEntry, hp, hp', Ne.symm h]
      · simp [setEntry, findEntry, hp, hp', ih]

/-- The per-key accumulation a list of items performs, starting from an
optional existing accumulator. -/
def accumulate (start : Option AggregatedCost) (ms : List CloudCostItem) :
    Option AggregatedCost :=
  ms.foldl (fun acc i => some (aggAdd (acc.getD zeroAgg) i)) start

/-- Folding the item loop over any item list refines to a per-key
accumulation over exactly the items whose key matches. -/
theorem findEntry_foldl_addItem (items : List CloudCostItem)
    (acc : List (CostKey × AggregatedCost)) (k : CostKey) :
    findEntry (items.foldl addItem acc) k =
      accumulate (findEntry acc k) (items.filter (fun i => mkKey i = k)) := by
  induction items generalizing acc with
  | nil => rfl
  | cons i t ih =>
    rw [List.foldl_cons, ih]
    by_cases hk : mkKey i = k
    · rw [List.filter_cons_of_pos (by simpa using hk)]
      have h1 : findEntry (addItem acc i) k =
          some (aggAdd ((findEntry acc k).getD zeroAgg) i) := by
        rw [addItem, hk, findEntry_setEntry_self]
      rw [h1, accumulate, accumulate, List.foldl_cons]
    · rw [List.filter_cons_of_neg (by simpa using hk)]
      rw [addItem, findEntry_setEntry_other _ _ _ _ hk]

/-- Closed form of accumulate from a present accumulator: the five cost
fields add up, the Kubernetes percent is replaced by each item in turn. -/
theorem accumulate_some (ms : List CloudCostItem) (v : AggregatedCost) :
    accumulate (some v) ms = some
      { listCost := v.listCost + (ms.map (fun i => i.ListCost.Cost)).sum
        netCost := v.netCost + (ms.map (fun i => i.NetCost.Cost)).sum
        amortizedNetCost := v.amortizedNetCost +
          (ms.map (fun i => i.AmortizedNetCost.Cost)).sum
        invoicedCost := v.invoicedCost +
          (ms.map (fun i => i.InvoicedCost.Cost)).sum
        amortizedCost := v.amortizedCost +
          (ms.map (fun i => i.AmortizedCost.Cost)).sum
        kubePercent := ms.foldl (fun _ i => i.ListCost.KubernetesPercent)
          v.kubePercent } := by
  induction ms generalizing v with
  | nil => simp [accumulate]
  | cons i t ih =>
    rw [accumulate, List.foldl_cons, Option.getD_some, ← accumulate, ih]
    simp only [List.map_cons, List.sum_cons, List.foldl_cons, aggAdd,
      Option.some.injEq, AggregatedCost.mk.injEq]
    refine ⟨by ring, by ring, by ring, by ring, by ring, trivial⟩

/-- A fold that keeps only the mapped head of each step computes the image of
the last element. -/
theorem foldl_replace_getLast {α β : Type} (f : α → β) (l : List α)
    (hne : l ≠ []) (d : β) :
    l.foldl (fun _ i => f i) d = f (l.getLast hne) := by
  induction l generalizing d with
  | nil => exact absurd rfl hne
  | cons i t ih =>
    cases t with
    | nil => simp [List.getLast]
    | cons j u =>
      rw [List.foldl_cons, ih (by simp) (f i)]
      rfl

/-- Aggregation result for a key whose matching item list is empty. -/
theorem findEntry_aggregate_of_empty (items : List CloudCostItem) (k : CostKey)
    (h : items.filter (fun i => mkKey i = k) = []) :
    findEntry (items.foldl addItem []) k = none := by
  rw [findEntry_foldl_addItem, h]
  rfl

/-- Closed form of accumulate from an absent accumulator on a nonempty item
list: plain sums for the five cost figures, last item's list-cost Kubernetes
percent. -/
theorem accumulate_none_of_ne (ms : List CloudCostItem) (hne : ms ≠ []) :
    accumulate none ms = some
      { listCost := (ms.map (fun i => i.ListCost.Cost)).sum
        netCost := (ms.map (fun i => i.NetCost.Cost)).sum
        amortizedNetCost := (ms.map (fun i => i.AmortizedNetCost.Cost)).sum
        invoicedCost := (ms.map (fun i => i.InvoicedCost.Cost)).sum
        amortizedCost := (ms.map (fun i => i.AmortizedCost.Cost)).sum
        kubePercent := (ms.getLast hne).ListCost.KubernetesPercent } := by
  cases ms with
  | nil => exact absurd rfl hne
  | cons j t =>
    rw [accumulate, List.foldl_cons, ← accumulate, Option.getD_none,
      accumulate_some]
    simp only [List.map_cons, List.sum_cons, Option.some.injEq,
      AggregatedCost.mk.injEq]
    refine ⟨by simp [aggAdd, zeroAgg], by simp [aggAdd, zeroAgg],
      by simp [aggAdd, zeroAgg], by simp [aggAdd, zeroAgg],
      by simp [aggAdd, zeroAgg], ?_⟩
    have h := foldl_replace_getLast (fun i => i.ListCost.KubernetesPercent)
      (j :: t) (by simp) j.ListCost.KubernetesPercent
    rw [List.foldl_cons] at h
    exact h

/-- Aggregation result for a key with at least one matching item: the five
cost figures are the sums over the matching items, the Kubernetes percent is
that of the last matching item's list cost figure. -/
theorem findEntry_aggregate_of_ne (items : List CloudCostItem) (k : CostKey)
    (hne : items.filter (fun i => mkKey i = k) ≠ []) :
    findEntry (items.foldl addItem []) k = some
      { listCost := ((items.filter (fun i => mkKey i = k)).map
          (fun i => i.ListCost.Cost)).sum
        netCost := ((items.filter (fun i => mkKey i = k)).map
          (fun i => i.NetCost.Cost)).sum
        amortizedNetCost := ((items.filter (fun i => mkKey i = k)).map
          (fun i => i.AmortizedNetCost.Cost)).sum
        invoicedCost := ((items.filter (fun i => mkKey i = k)).map
          (fun i => i.InvoicedCost.Cost)).sum
        amortizedCost := ((items.filter (fun i => mkKey i = k)).map
          (fun i => i.AmortizedCost.Cost)).sum
        kubePercent := ((items.filter (fun i => mkKey i = k)).getLast
          hne).ListCost.KubernetesPercent } := by
  rw [findEntry_foldl_addItem]
  exact accumulate_none_of_ne _ hne

/-- Variant of findEntry_aggregate_of_ne with the Kubernetes percent written
as a non-dependent replacing fold over the matching items. -/
theorem findEntry_aggregate_foldl (items : List CloudCostItem) (k : CostKey)
    (hne : items.filter (fun i => mkKey i = k) ≠ []) :
    findEntry (items.foldl addItem []) k = some
      { listCost := ((items.filter (fun i => mkKey i = k)).map
          (fun i => i.ListCost.Cost)).sum
        netCost := ((items.filter (fun i => mkKey i = k)).map
          (fun i => i.NetCost.Cost)).sum
        amortizedNetCost := ((items.filter (fun i => mkKey i = k)).map
          (fun i => i.AmortizedNetCost.Cost)).sum
        invoicedCost := ((items.filter (fun i => mkKey i = k)).map
          (fun i => i.InvoicedCost.Cost)).sum
        amortizedCost := ((items.filter (fun i => mkKey i = k)).map
          (fun i => i.AmortizedCost.Cost)).sum
        kubePercent := (items.filter (fun i => mkKey i = k)).foldl
          (fun _ i => i.ListCost.KubernetesPercent) 0 } := by
  rw [findEntry_aggregate_of_ne items k hne,
    foldl_replace_getLast (fun i => i.ListCost.KubernetesPercent) _ hne 0]

/-- C2: the aggregation pass sums all five cost figures by addition over every
item, across every set, that shares the same DimensionKey, and items with
distinct DimensionKeys produce distinct accumulator entries: the entry found
for a key is determined entirely by the items whose derived key equals it
(absent when no such item exists). -/
theorem aggregate_sums_per_key (data : CloudCostResponse) (k : CostKey) :
    ((allItems data).filter (fun i => mkKey i = k) = [] →
      findEntry (aggregate data) k = none) ∧
    ((allItems data).filter (fun i => mkKey i = k) ≠ [] →
      findEntry (aggregate data) k = some
        { listCost := (((allItems data).filter (fun i => mkKey i = k)).map
            (fun i => i.ListCost.Cost)).sum
          netCost := (((allItems data).filter (fun i => mkKey i = k)).map
            (fun i => i.NetCost.Cost)).sum
          amortizedNetCost := (((allItems data).filter
            (fun i => mkKey i = k)).map
            (fun i => i.AmortizedNetCost.Cost)).sum
          invoicedCost := (((allItems data).filter (fun i => mkKey i = k)).map
            (fun i => i.InvoicedCost.Cost)).sum
          amortizedCost := (((allItems data).filter (fun i => mkKey i = k)).map
            (fun i => i.AmortizedCost.Cost)).sum
          kubePercent := ((allItems data).filter
            (fun i => mkKey i = k)).foldl
            (fun _ i => i.ListCost.KubernetesPercent) 0 }) :=
  ⟨fun h => findEntry_aggregate_of_empty _ _ h,
   fun hne => findEntry_aggregate_foldl _ _ hne⟩

/-- Properties of the first two sample items: same key (service AmazonEC2). -/
def propsEC2 : CloudCostProperties :=
  { ProviderID := "arn:aws:ec2", Provider := "aws", AccountID := "123456789"
    AccountName := "", InvoiceEntityID := "", InvoiceEntityName := ""
    AvailabilityZone := "us-east-1a", RegionID := "us-east-1"
    Service := "AmazonEC2", Category := "Compute"
    Labels := [("owner", "team-alpha"), ("environment", "prod"),
      ("cluster", "eks-main")] }

/-- Properties of the third sample item: distinct key (service AmazonS3). -/
def propsS3 : CloudCostProperties :=
  { propsEC2 with Service := "AmazonS3", Category := "Storage" }

/-- First sample item: list cost 100.50, Kubernetes percent 0.75. -/
def itemA : CloudCostItem :=
  { Properties := propsEC2, Window := ⟨"", ""⟩
    ListCost := ⟨201 / 2, 3 / 4⟩, NetCost := ⟨80, 0⟩
    AmortizedNetCost := ⟨70, 0⟩, InvoicedCost := ⟨80, 0⟩
    AmortizedCost := ⟨90, 0⟩ }

/-- Second sample item, same key as the first: list cost 50.00, Kubernetes
percent 0.5. -/
def itemB : CloudCostItem :=
  { Properties := propsEC2, Window := ⟨"", ""⟩
    ListCost := ⟨50, 1 / 2⟩, NetCost := ⟨10, 0⟩
    AmortizedNetCost := ⟨20, 0⟩, InvoicedCost := ⟨30, 0⟩
    AmortizedCost := ⟨40, 0⟩ }

/-- Third sample item with a distinct key. -/
def itemC : CloudCostItem :=
  { Properties := propsS3, Window := ⟨"", ""⟩
    ListCost := ⟨7, 1 / 5⟩, NetCost := ⟨1, 0⟩
    AmortizedNetCost := ⟨2, 0⟩, InvoicedCost := ⟨3, 0⟩
    AmortizedCost := ⟨4, 0⟩ }

/-- A sample snapshot holding the three items in one set. -/
def sampleData : CloudCostResponse :=
  { Code := 200
    Data := { Sets := [⟨[("a", itemA), ("b", itemB), ("c", itemC)]⟩] } }

/-- Witness for C2: two items sharing a key with list costs 100.50 and 50.00
aggregate to exactly 150.50, while the item with a distinct key keeps its own
entry. -/
theorem aggregate_sums_per_key_witness :
    findEntry (aggregate sampleData) (mkKey itemA) =
      some ⟨301 / 2, 90, 90, 110, 130, 1 / 2⟩ ∧
    findEntry (aggregate sampleData) (mkKey itemC) =
      some ⟨7, 1, 2, 3, 4, 1 / 5⟩ := by
  have hfA : (allItems sampleData).filter (fun i => mkKey i = mkKey itemA) =
      [itemA, itemB] := by
    simp [allItems, sampleData, itemA, itemB, itemC, propsEC2, propsS3,
      mkKey, lookupLabel, findEntry, CostKey.mk.injEq]
  have hfC : (allItems sampleData).filter (fun i => mkKey i = mkKey itemC) =
      [itemC] := by
    simp [allItems, sampleData, itemA, itemB, itemC, propsEC2, propsS3,
      mkKey, lookupLabel, findEntry, CostKey.mk.injEq]
  constructor
  · have h := (aggregate_sums_per_key sampleData (mkKey itemA)).2
      (by rw [hfA]; simp)
    rw [hfA] at h
    rw [h]
    norm_num [itemA, itemB, AggregatedCost.mk.injEq]
  · have h := (aggregate_sums_per_key sampleData (mkKey itemC)).2
      (by rw [hfC]; simp)
    rw [hfC] at h
    rw [h]
    norm_num [itemC, AggregatedCost.mk.injEq]

/-- C8: over a sequence of items sharing one DimensionKey, the retained
Kubernetes fraction is never summed but overwritten to that of the last item
processed, while the five cost figures of the same items accumulate by
addition. -/
theorem kube_last_write_wins (items : List CloudCostItem) (k : CostKey)
    (hall : ∀ i ∈ items, mkKey i = k) (hne : items ≠ []) :
    findEntry (items.foldl addItem []) k = some
      { listCost := (items.map (fun i => i.ListCost.Cost)).sum
        netCost := (items.map (fun i => i.NetCost.Cost)).sum
        amortizedNetCost := (items.map (fun i => i.AmortizedNetCost.Cost)).sum
        invoicedCost := (items.map (fun i => i.InvoicedCost.Cost)).sum
        amortizedCost := (items.map (fun i => i.AmortizedCost.Cost)).sum
        kubePercent := (items.getLast hne).ListCost.KubernetesPercent } := by
  have hfilter : items.filter (fun i => mkKey i = k) = items := by
    rw [List.filter_eq_self]
    intro a ha
    simpa using hall a ha
  rw [findEntry_foldl_addItem, hfilter]
  exact accumulate_none_of_ne items hne

/-- Witness for C8: processing the two same-key sample items, the Kubernetes
fraction ends at the second item's 0.5 (not the sum 1.25) while the list cost
is the sum 150.50. -/
theorem kube_last_write_wins_witness :
    findEntry ([itemA, itemB].foldl addItem []) (mkKey itemA) =
      some ⟨301 / 2, 90, 90, 110, 130, 1 / 2⟩ := by
  have h := kube_last_write_wins [itemA, itemB] (mkKey itemA)
    (by
      intro i hi
      simp only [List.mem_cons, List.not_mem_nil, or_false] at hi
      rcases hi with rfl | rfl
      · rfl
      · simp [mkKey, itemA, itemB, propsEC2, lookupLabel, findEntry])
    (by simp)
  rw [h]
  norm_num [itemA, itemB, AggregatedCost.mk.injEq, List.getLast]

/-- A labeled numeric observation handed to the metrics sink. -/
structure Metric where
  name : String
  labels : List String
  value : ℚ
deriving DecidableEq

/-- Name of the cost metric descriptor: namespace aws_cloud plus cost_total. -/
def costTotalName : String := "aws_cloud_cost_total"

/-- Name of the Kubernetes percent metric descriptor. -/
def kubePercentName : String := "aws_cloud_cost_kubernetes_percent"

/-- emitCost from the collector: builds the full label slice by appending the
first four labels, then the cost type, then the remaining labels. -/
def emitCost (labels : List String) (costType : String) (value : ℚ) :
    Metric :=
  { name := costTotalName
    labels := labels.take 4 ++ [costType] ++ labels.drop 4
    value := value }

/-- The labels slice built per aggregated key in emitCostMetrics. -/
def keyLabels (k : CostKey) : List String :=
  [k.providerID, k.accountID, k.service, k.category, k.region,
   k.availabilityZone, k.owner, k.environment, k.cluster]

/-- The per-key emission block of emitCostMetrics: one emitCost call per cost
type, then the Kubernetes percent metric when enabled, with the cost_type
label fixed to amortized_net and only the first four identifying labels plus
region. -/
def emitForKey (emitKubePercentMetrics : Bool) (k : CostKey)
    (cost : AggregatedCost) : List Metric :=
  [emitCost (keyLabels k) "list" cost.listCost,
   emitCost (keyLabels k) "net" cost.netCost,
   emitCost (keyLabels k) "amortized_net" cost.amortizedNetCost,
   emitCost (keyLabels k) "invoiced" cost.invoicedCost,
   emitCost (keyLabels k) "amortized" cost.amortizedCost] ++
  (if emitKubePercentMetrics then
    [{ name := kubePercentName
       labels := [k.providerID, k.accountID, k.service, k.category,
         "amortized_net", k.region]
       value := cost.kubePercent }]
  else [])

/-- emitCostMetrics from the collector: aggregate, then emit per key. -/
def emitCostMetrics (emitKubePercentMetrics : Bool)
    (data : CloudCostResponse) : List Metric :=
  (aggregate data).flatMap
    (fun e => emitForKey emitKubePercentMetrics e.1 e.2)

/-- C3: every cost observation presents its labels in exactly the order
provider id, account id, service, category, cost type, region, availability
zone, owner, environment, cluster: the cost type is interleaved between the
category and region positions, for every key and every cost type. -/
theorem cost_label_order (k : CostKey) (ct : String) (v : ℚ) :
    (emitCost (keyLabels k) ct v).labels =
      [k.providerID, k.accountID, k.service, k.category, ct, k.region,
       k.availabilityZone, k.owner, k.environment, k.cluster] ∧
    (∀ (b : Bool) (cost : AggregatedCost) (m : Metric),
      m ∈ emitForKey b k cost → m.name = costTotalName →
      ∃ ct2, m.labels =
        [k.providerID, k.accountID, k.service, k.category, ct2, k.region,
         k.availabilityZone, k.owner, k.environment, k.cluster]) := by
  constructor
  · rfl
  · intro b cost m hm hname
    cases b with
    | false =>
      simp [emitForKey] at hm
      obtain hm | hm | hm | hm | hm := hm
      · exact ⟨"list", by rw [hm]; rfl⟩
      · exact ⟨"net", by rw [hm]; rfl⟩
      · exact ⟨"amortized_net", by rw [hm]; rfl⟩
      · exact ⟨"invoiced", by rw [hm]; rfl⟩
      · exact ⟨"amortized", by rw [hm]; rfl⟩
    | true =>
      simp [emitForKey] at hm
      obtain hm | hm | hm | hm | hm | hm := hm
      · exact ⟨"list", by rw [hm]; rfl⟩
      · exact ⟨"net", by rw [hm]; rfl⟩
      · exact ⟨"amortized_net", by rw [hm]; rfl⟩
      · exact ⟨"invoiced", by rw [hm]; rfl⟩
      · exact ⟨"amortized", by rw [hm]; rfl⟩
      · rw [hm] at hname
        exact absurd hname (by simp [kubePercentName, costTotalName])

/-- Witness for C3: the net cost observation for the sample key presents the
labels with net between category and region. -/
theorem cost_label_order_witness :
    (emitCost (keyLabels (mkKey itemA)) "net" 90).labels =
      ["arn:aws:ec2", "123456789", "AmazonEC2", "Compute", "net",
       "us-east-1", "us-east-1a", "team-alpha", "prod", "eks-main"] ∧
    (∃ ct2, (emitCost (keyLabels (mkKey itemA)) "net" 90).labels =
      [(mkKey itemA).providerID, (mkKey itemA).accountID,
       (mkKey itemA).service, (mkKey itemA).category, ct2,
       (mkKey itemA).region, (mkKey itemA).availabilityZone,
       (mkKey itemA).owner, (mkKey itemA).environment,
       (mkKey itemA).cluster]) := by
  constructor
  · rw [(cost_label_order (mkKey itemA) "net" 90).1]
    simp [mkKey, itemA, propsEC2, lookupLabel, findEntry]
  · exact (cost_label_order (mkKey itemA) "net" 90).2 true zeroAgg
      (emitCost (keyLabels (mkKey itemA)) "net" zeroAgg.netCost)
      (by simp [emitForKey]) rfl

/-- C7: for every key, exactly five cost observations are emitted, one per
cost type tag in order list, net, amortized_net, invoiced, amortized, all
carrying the same identifying label set around the cost type label at index
four; and exactly one Kubernetes percent observation, tagged amortized_net,
is emitted for the key if and only if that output is enabled. -/
theorem emit_counts (b : Bool) (k : CostKey) (cost : AggregatedCost) :
    ((emitForKey b k cost).filter (fun m => m.name = costTotalName)).map
        (fun m => m.labels[4]?) =
      [some "list", some "net", some "amortized_net", some "invoiced",
       some "amortized"] ∧
    ((emitForKey b k cost).filter
      (fun m => m.name = costTotalName)).length = 5 ∧
    (∀ m ∈ emitForKey b k cost, m.name = costTotalName →
      m.labels.take 4 = [k.providerID, k.accountID, k.service, k.category] ∧
      m.labels.drop 5 = [k.region, k.availabilityZone, k.owner,
        k.environment, k.cluster]) ∧
    ((emitForKey b k cost).filter
      (fun m => m.name = kubePercentName)).length = (if b then 1 else 0) ∧
    (∀ m ∈ emitForKey b k cost, m.name = kubePercentName →
      m.labels[4]? = some "amortized_net") := by
  refine ⟨?_, ?_, ?_, ?_, ?_⟩
  · cases b <;>
      simp [emitForKey, emitCost, keyLabels, costTotalName, kubePercentName]
  · cases b <;>
      simp [emitForKey, emitCost, keyLabels, costTotalName, kubePercentName]
  · intro m hm hname
    cases b with
    | false =>
      simp [emitForKey] at hm
      obtain hm | hm | hm | hm | hm := hm <;> rw [hm] <;> exact ⟨rfl, rfl⟩
    | true =>
      simp [emitForKey] at hm
      obtain hm | hm | hm | hm | hm | hm := hm
      · rw [hm]; exact ⟨rfl, rfl⟩
      · rw [hm]; exact ⟨rfl, rfl⟩
      · rw [hm]; exact ⟨rfl, rfl⟩
      · rw [hm]; exact ⟨rfl, rfl⟩
      · rw [hm]; exact ⟨rfl, rfl⟩
      · rw [hm] at hname
        exact absurd hname (by simp [kubePercentName, costTotalName])
  · cases b <;>
      simp [emitForKey, emitCost, keyLabels, costTotalName, kubePercentName]
  · intro m hm hname
    cases b with
    | false =>
      simp [emitForKey] at hm
      obtain hm | hm | hm | hm | hm := hm <;> rw [hm] at hname <;>
        exact absurd hname
          (by simp [emitCost, costTotalName, kubePercentName])
    | true =>
      simp [emitForKey] at hm
      obtain hm | hm | hm | hm | hm | hm := hm
      · rw [hm] at hname
        exact absurd hname (by simp [emitCost, costTotalName, kubePercentName])
      · rw [hm] at hname
        exact absurd hname (by simp [emitCost, costTotalName, kubePercentName])
      · rw [hm] at hname
        exact absurd hname (by simp [emitCost, costTotalName, kubePercentName])
      · rw [hm] at hname
        exact absurd hname (by simp [emitCost, costTotalName, kubePercentName])
      · rw [hm] at hname
        exact absurd hname (by simp [emitCost, costTotalName, kubePercentName])
      · rw [hm]; rfl

/-- Witness for C7: at the sample key with the output enabled, five cost
observations and one Kubernetes percent observation, and the first cost
observation carries the identifying labels around the cost type slot. -/
theorem emit_counts_witness :
    ((emitForKey true (mkKey itemA) zeroAgg).filter
      (fun m => m.name = costTotalName)).length = 5 ∧
    ((emitForKey true (mkKey itemA) zeroAgg).filter
      (fun m => m.name = kubePercentName)).length = 1 ∧
    (emitCost (keyLabels (mkKey itemA)) "list" zeroAgg.listCost).labels.take 4
      = [(mkKey itemA).providerID, (mkKey itemA).accountID,
         (mkKey itemA).service, (mkKey itemA).category] := by
  refine ⟨(emit_counts true (mkKey itemA) zeroAgg).2.1, ?_, ?_⟩
  · have h := (emit_counts true (mkKey itemA) zeroAgg).2.2.2.1
    simpa using h
  · exact ((emit_counts true (mkKey itemA) zeroAgg).2.2.1 _
      (by simp [emitForKey]) rfl).1

/-- C10: with the Kubernetes percent output enabled, the Kubernetes percent
observation for a key carries only the six labels provider id, account id,
service, category, cost type fixed to amortized_net, and region, omitting
availability zone, owner, environment and cluster; its value is the
aggregated kubePercent, and the aggregation takes that value from the
KubernetesPercent of the item's list cost figure. -/
theorem kube_metric_shape (b : Bool) (k : CostKey) (cost : AggregatedCost) :
    (∀ m ∈ emitForKey b k cost, m.name = kubePercentName →
      m.labels = [k.providerID, k.accountID, k.service, k.category,
        "amortized_net", k.region] ∧ m.value = cost.kubePercent) ∧
    (∀ (acc : List (CostKey × AggregatedCost)) (item : CloudCostItem),
      ∃ v, findEntry (addItem acc item) (mkKey item) = some v ∧
        v.kubePercent = item.ListCost.KubernetesPercent) := by
  constructor
  · intro m hm hname
    cases b with
    | false =>
      simp [emitForKey] at hm
      obtain hm | hm | hm | hm | hm := hm <;> rw [hm] at hname <;>
        exact absurd hname
          (by simp [emitCost, costTotalName, kubePercentName])
    | true =>
      simp [emitForKey] at hm
      obtain hm | hm | hm | hm | hm | hm := hm
      · rw [hm] at hname
        exact absurd hname (by simp [emitCost, costTotalName, kubePercentName])
      · rw [hm] at hname
        exact absurd hname (by simp [emitCost, costTotalName, kubePercentName])
      · rw [hm] at hname
        exact absurd hname (by simp [emitCost, costTotalName, kubePercentName])
      · rw [hm] at hname
        exact absurd hname (by simp [emitCost, costTotalName, kubePercentName])
      · rw [hm] at hname
        exact absurd hname (by simp [emitCost, costTotalName, kubePercentName])
      · rw [hm]; exact ⟨rfl, rfl⟩
  · intro acc item
    exact ⟨aggAdd ((findEntry acc (mkKey item)).getD zeroAgg) item,
      findEntry_setEntry_self acc (mkKey item) _, rfl⟩

/-- Witness for C10: the sample key's Kubernetes percent observation has the
six labels and the accumulator value, and aggregating the first sample item
into an empty accumulator stores its list cost Kubernetes percent 0.75. -/
theorem kube_metric_shape_witness :
    (({ name := kubePercentName
        labels := [(mkKey itemA).providerID, (mkKey itemA).accountID,
          (mkKey itemA).service, (mkKey itemA).category, "amortized_net",
          (mkKey itemA).region]
        value := zeroAgg.kubePercent } : Metric).labels =
      [(mkKey itemA).providerID, (mkKey itemA).accountID,
       (mkKey itemA).service, (mkKey itemA).category, "amortized_net",
       (mkKey itemA).region] ∧
     ({ name := kubePercentName
        labels := [(mkKey itemA).providerID, (mkKey itemA).accountID,
          (mkKey itemA).service, (mkKey itemA).category, "amortized_net",
          (mkKey itemA).region]
        value := zeroAgg.kubePercent } : Metric).value =
       zeroAgg.kubePercent) ∧
    (∃ v, findEntry (addItem [] itemA) (mkKey itemA) = some v ∧
      v.kubePercent = itemA.ListCost.KubernetesPercent) :=
  ⟨(kube_metric_shape true (mkKey itemA) zeroAgg).1 _
      (by simp [emitForKey]) rfl,
   (kube_metric_shape true (mkKey itemA) zeroAgg).2 [] itemA⟩

/-- Collector state: the cache, the refreshing flag, and the scrape error
counter, plus two ghost fields for the concurrency claims: inFlight counts
running background refresh goroutines, fetches counts triggered fetches. -/
structure CollectorState where
  cache : Cache
  refreshing : Bool
  scrapeErrors : Nat
  inFlight : Nat
  fetches : Nat
deriving DecidableEq

/-- fetchAndCache from the collector, with the fetch outcome made explicit:
on error increment the scrape error counter and return nil without touching
the cache; on success store the data and return it. -/
def fetchAndCache (s : CollectorState) (outcome : Option CloudCostResponse)
    (now : Nat) : CollectorState × Option CloudCostResponse :=
  match outcome with
  | none => ({ s with scrapeErrors := s.scrapeErrors + 1 }, none)
  | some d => ({ s with cache := s.cache.Set d now }, some d)

/-- The mutex-protected body of Collect: consult the cache; on a hit with
stale data and no refresh in flight, set the flag and spawn a background
refresh (ghost fields updated at spawn); on a miss fetch synchronously. -/
def collectStep (s : CollectorState) (now : Nat)
    (syncOutcome : Option CloudCostResponse) :
    CollectorState × Option CloudCostResponse :=
  let r := s.cache.Get now
  let data := r.1.1
  let isStale := r.1.2.1
  let ok := r.1.2.2
  let cache' := r.2
  if ok then
    if isStale ∧ ¬ s.refreshing then
      ({ s with
          cache := cache'
          refreshing := true
          inFlight := s.inFlight + 1
          fetches := s.fetches + 1 }, data)
    else
      ({ s with cache := cache' }, data)
  else
    let fr := fetchAndCache { s with cache := cache' } syncOutcome now
    ({ fr.1 with fetches := fr.1.fetches + 1 }, fr.2)

/-- Completion of the background refresh goroutine: apply the fetchAndCache
effects, then clear the refreshing flag (regardless of outcome); the ghost
goroutine count drops.  The spawned fetch was counted at spawn time. -/
def refreshComplete (s : CollectorState) (outcome : Option CloudCostResponse)
    (now : Nat) : CollectorState :=
  let s1 := (fetchAndCache s outcome now).1
  { s1 with refreshing := false, inFlight := s.inFlight - 1 }

/-- Atomic steps of the collector system: a serialized Collect body, or the
completion of a running background refresh. -/
inductive CStep : CollectorState → CollectorState → Prop where
  | scrape (s : CollectorState) (now : Nat)
      (syncOutcome : Option CloudCostResponse) :
      CStep s (collectStep s now syncOutcome).1
  | finish (s : CollectorState) (outcome : Option CloudCostResponse)
      (now : Nat) : 1 ≤ s.inFlight → CStep s (refreshComplete s outcome now)

/-- collector.New over cache.New: flag clear, counters zero. -/
def initCollector (ttl maxStale : Nat) : CollectorState :=
  { cache := Cache.New ttl maxStale, refreshing := false, scrapeErrors := 0
    inFlight := 0, fetches := 0 }

/-- States reachable from a fresh collector. -/
inductive ReachableColl (ttl maxStale : Nat) : CollectorState → Prop where
  | base : ReachableColl ttl maxStale (initCollector ttl maxStale)
  | step {s s' : CollectorState} : ReachableColl ttl maxStale s →
      CStep s s' → ReachableColl ttl maxStale s'

/-- The single-flight invariant: a goroutine runs exactly when the flag is
set. -/
def FlagInv (s : CollectorState) : Prop :=
  s.inFlight = if s.refreshing then 1 else 0

theorem fetchAndCache_keeps_flags (s : CollectorState)
    (outcome : Option CloudCostResponse) (now : Nat) :
    (fetchAndCache s outcome now).1.refreshing = s.refreshing ∧
    (fetchAndCache s outcome now).1.inFlight = s.inFlight := by
  cases outcome <;> simp [fetchAndCache]

theorem flagInv_preserved {s s' : CollectorState} (hinv : FlagInv s)
    (hstep : CStep s s') : FlagInv s' := by
  cases hstep with
  | scrape now syncOutcome =>
    unfold FlagInv at *
    unfold collectStep
    by_cases hok : (s.cache.Get now).1.2.2 = true
    · by_cases hcond : (s.cache.Get now).1.2.1 = true ∧ ¬ s.refreshing = true
      · simp only [hok, if_true]
        rw [if_pos (by simpa using hcond)]
        have hrf : s.refreshing = false := by simpa using hcond.2
        rw [hrf] at hinv
        simp at hinv
        simp [hinv]
      · simp only [hok, if_true]
        rw [if_neg (by simpa using hcond)]
        exact hinv
    · simp only [Bool.not_eq_true] at hok
      simp only [hok, Bool.false_eq_true, if_false]
      cases syncOutcome <;> simpa [fetchAndCache] using hinv
  | finish outcome now h =>
    unfold FlagInv at *
    cases hr : s.refreshing with
    | false => rw [hr] at hinv; simp at hinv; omega
    | true =>
      rw [hr] at hinv
      simp at hinv
      cases outcome <;> simp [refreshComplete, fetchAndCache, hinv]

theorem reachable_flagInv {ttl maxStale : Nat} {s : CollectorState}
    (h : ReachableColl ttl maxStale s) : FlagInv s := by
  induction h with
  | base => rfl
  | step _ hstep ih => exact flagInv_preserved ih hstep

/-- Staleness of a cache entry at an instant: present, past ttl, within the
stale window. -/
def staleAt (c : Cache) (now : Nat) : Prop :=
  c.data ≠ none ∧ c.ttl < now - c.fetchedAt ∧
    now - c.fetchedAt ≤ c.ttl + c.maxStale

theorem get_stale {c : Cache} {now : Nat} (h : staleAt c now) :
    c.Get now = ((c.data, true, true), { c with hits := c.hits + 1 }) := by
  obtain ⟨hd, h1, h2⟩ := h
  cases hc : c.data with
  | none => exact absurd hc hd
  | some d =>
    have hn : ¬ (now - c.fetchedAt ≤ c.ttl) := by omega
    simp [Cache.Get, hc, hn, h2]

theorem collectStep_stale_spawn (s : CollectorState) (now : Nat)
    (o : Option CloudCostResponse) (hs : staleAt s.cache now)
    (hr : s.refreshing = false) :
    collectStep s now o =
      ({ s with
          cache := { s.cache with hits := s.cache.hits + 1 }
          refreshing := true
          inFlight := s.inFlight + 1
          fetches := s.fetches + 1 }, s.cache.data) := by
  unfold collectStep
  rw [get_stale hs]
  simp [hr]

theorem collectStep_stale_refreshing (s : CollectorState) (now : Nat)
    (o : Option CloudCostResponse) (hs : staleAt s.cache now)
    (hr : s.refreshing = true) :
    collectStep s now o =
      ({ s with cache := { s.cache with hits := s.cache.hits + 1 } },
       s.cache.data) := by
  unfold collectStep
  rw [get_stale hs]
  simp [hr]

/-- C4: at most one background refresh is in flight in any reachable state;
the in-flight guard flag is cleared by refresh completion regardless of
outcome; and two scrapes that both observe staleness (the first with no
refresh in flight) both receive the cached snapshot while triggering exactly
one background fetch in total. -/
theorem single_flight_refresh (ttl maxStale : Nat) :
    (∀ s : CollectorState, ReachableColl ttl maxStale s → s.inFlight ≤ 1) ∧
    (∀ (s : CollectorState) (outcome : Option CloudCostResponse) (now : Nat),
      (refreshComplete s outcome now).refreshing = false) ∧
    (∀ (s : CollectorState) (now1 now2 : Nat)
      (o1 o2 : Option CloudCostResponse),
      FlagInv s → s.refreshing = false →
      staleAt s.cache now1 → staleAt s.cache now2 →
      (collectStep s now1 o1).2 = s.cache.data ∧
      (collectStep (collectStep s now1 o1).1 now2 o2).2 = s.cache.data ∧
      (collectStep (collectStep s now1 o1).1 now2 o2).1.fetches
        = s.fetches + 1 ∧
      (collectStep (collectStep s now1 o1).1 now2 o2).1.inFlight ≤ 1) := by
  refine ⟨?_, ?_, ?_⟩
  · intro s hs
    have h := reachable_flagInv hs
    unfold FlagInv at h
    cases hr : s.refreshing <;> rw [hr] at h <;> simp at h <;> omega
  · intro s outcome now
    cases outcome <;> rfl
  · intro s now1 now2 o1 o2 hinv hrf hs1 hs2
    have h0 : s.inFlight = 0 := by
      unfold FlagInv at hinv
      rw [hrf] at hinv
      simpa using hinv
    have e1 := collectStep_stale_spawn s now1 o1 hs1 hrf
    have hs2' : staleAt ((collectStep s now1 o1).1).cache now2 := by
      rw [e1]
      exact hs2
    have hr2 : ((collectStep s now1 o1).1).refreshing = true := by
      rw [e1]
    have e2 := collectStep_stale_refreshing ((collectStep s now1 o1).1)
      now2 o2 hs2' hr2
    refine ⟨by rw [e1], ?_, ?_, ?_⟩
    · rw [e2, e1]
    · rw [e2, e1]
    · rw [e2, e1]
      simp
      omega

/-- A collector holding data fetched at 0 with ttl 10 and maxStale 5: stale
at instant 12, expired at instant 20. -/
def staleCollector : CollectorState :=
  { cache := ⟨some sampleResponse, 0, 10, 5, 0, 0⟩, refreshing := false
    scrapeErrors := 0, inFlight := 0, fetches := 0 }

/-- Witness for C4: from the stale sample state, two scrapes at instant 12
both get the snapshot and spawn exactly one refresh. -/
theorem single_flight_refresh_witness :
    (initCollector 10 5).inFlight ≤ 1 ∧
    (refreshComplete staleCollector none 0).refreshing = false ∧
    (collectStep staleCollector 12 none).2 = some sampleResponse ∧
    (collectStep (collectStep staleCollector 12 none).1 12 none).2 =
      some sampleResponse ∧
    (collectStep (collectStep staleCollector 12 none).1 12 none).1.fetches
      = 1 ∧
    (collectStep (collectStep staleCollector 12 none).1 12 none).1.inFlight
      ≤ 1 := by
  have h := (single_flight_refresh 10 5).2.2 staleCollector 12 12 none none
    rfl rfl ⟨by decide, by decide, by decide⟩ ⟨by decide, by decide, by decide⟩
  exact ⟨(single_flight_refresh 10 5).1 _ ReachableColl.base,
    (single_flight_refresh 10 5).2.1 staleCollector none 0,
    h.1, h.2.1, h.2.2.1, h.2.2.2⟩

theorem get_preserves_entry (c : Cache) (now : Nat) :
    (c.Get now).2.data = c.data ∧ (c.Get now).2.fetchedAt = c.fetchedAt := by
  cases hc : c.data with
  | none => simp [Cache.Get, hc]
  | some d =>
    simp only [Cache.Get, hc]
    split
    · simp
    · split <;> simp

/-- C6: a failed synchronous fetch returns an absent result and increments
the error counter while leaving the cache entry, both the snapshot and the
fetchedAt stamp, exactly as before: expired data is not resurrected and
nothing partial is stored. -/
theorem failed_sync_fetch_frame (s : CollectorState) (now : Nat)
    (hmiss : (s.cache.Get now).1.2.2 = false) :
    (collectStep s now none).2 = none ∧
    (collectStep s now none).1.cache.data = s.cache.data ∧
    (collectStep s now none).1.cache.fetchedAt = s.cache.fetchedAt ∧
    (collectStep s now none).1.scrapeErrors = s.scrapeErrors + 1 ∧
    (∀ (s2 : CollectorState) (now2 : Nat),
      (fetchAndCache s2 none now2).1.cache = s2.cache) := by
  have hp := get_preserves_entry s.cache now
  refine ⟨?_, ?_, ?_, ?_, ?_⟩
  · simp [collectStep, hmiss, fetchAndCache]
  · simp [collectStep, hmiss, fetchAndCache, hp.1]
  · simp [collectStep, hmiss, fetchAndCache, hp.2]
  · simp [collectStep, hmiss, fetchAndCache]
  · intro s2 now2
    simp [fetchAndCache]

/-- Witness for C6: a failed synchronous fetch at instant 20 on the expired
sample state keeps the old entry and bumps the error counter. -/
theorem failed_sync_fetch_frame_witness :
    (collectStep staleCollector 20 none).2 = none ∧
    (collectStep staleCollector 20 none).1.cache.data =
      some sampleResponse ∧
    (collectStep staleCollector 20 none).1.cache.fetchedAt = 0 ∧
    (collectStep staleCollector 20 none).1.scrapeErrors = 1 := by
  have h := failed_sync_fetch_frame staleCollector 20 (by decide)
  exact ⟨h.1, h.2.1, h.2.2.1, h.2.2.2.1⟩

/-- Observable behavior of the environment at one attempt of the retry loop
in Client.FetchCloudCosts: the doFetch outcome, whether the context fires
during the backoff select before the attempt, and whether ctx.Err() is
non-nil when checked after a failed attempt. -/
structure AttemptEnv where
  fetch : Except String CloudCostResponse
  cancelledBefore : Bool
  cancelledAfter : Bool

/-- Trace of one FetchCloudCosts run: the returned value, how many doFetch
calls were made, and the backoffs slept (in time units). -/
structure RunResult where
  result : Except String CloudCostResponse
  attempts : Nat
  sleeps : List Nat

/-- The retry loop of Client.FetchCloudCosts: for attempt > 0 wait an
exponential backoff of 2 ^ (attempt - 1) time units unless the context fires
first; try the fetch; return on success; on failure return ctx.Err() if the
context was canceled, otherwise retry; once attempts are exhausted wrap the
last error with the retry count. -/
def fetchLoop (env : Nat → AttemptEnv) (ctxErr : String) (maxRetries : Nat) :
    Nat → Nat → String → RunResult
  | _, 0, lastErr =>
    { result := Except.error ("after " ++ toString maxRetries ++
        " retries: " ++ lastErr)
      attempts := 0
      sleeps := [] }
  | attemptIdx, attemptsLeft + 1, _ =>
    if 0 < attemptIdx ∧ (env attemptIdx).cancelledBefore = true then
      { result := Except.error ctxErr, attempts := 0, sleeps := [] }
    else
      let sl := if 0 < attemptIdx then [2 ^ (attemptIdx - 1)] else []
      match (env attemptIdx).fetch with
      | Except.ok d => { result := Except.ok d, attempts := 1, sleeps := sl }
      | Except.error e =>
        if (env attemptIdx).cancelledAfter = true then
          { result := Except.error ctxErr, attempts := 1, sleeps := sl }
        else
          let r := fetchLoop env ctxErr maxRetries (attemptIdx + 1)
            attemptsLeft e
          { result := r.result, attempts := r.attempts + 1
            sleeps := sl ++ r.sleeps }

/-- Client.FetchCloudCosts: run the loop for attempts 0 through maxRetries
inclusive. -/
def FetchCloudCosts (env : Nat → AttemptEnv) (ctxErr : String)
    (maxRetries : Nat) : RunResult :=
  fetchLoop env ctxErr maxRetries 0 (maxRetries + 1) ""

/-- Skipping over a block of cleanly failing attempts: the loop from attempt
start with k + rest tries left behaves as the loop from attempt start + k
with rest tries left, plus k fetches and the k corresponding backoffs. -/
theorem fetchLoop_skip (env : Nat → AttemptEnv) (ctxErr : String)
    (maxRetries : Nat) (errF : Nat → String) :
    ∀ (k start rest : Nat) (lastErr : String), 0 < start →
    (∀ j, start ≤ j → j < start + k →
      (env j).fetch = Except.error (errF j) ∧
      (env j).cancelledBefore = false ∧ (env j).cancelledAfter = false) →
    fetchLoop env ctxErr maxRetries start (k + rest) lastErr =
      { result := (fetchLoop env ctxErr maxRetries (start + k) rest
          (if k = 0 then lastErr else errF (start + k - 1))).result
        attempts := (fetchLoop env ctxErr maxRetries (start + k) rest
          (if k = 0 then lastErr else errF (start + k - 1))).attempts + k
        sleeps := (List.range k).map (fun i => 2 ^ (start + i - 1)) ++
          (fetchLoop env ctxErr maxRetries (start + k) rest
            (if k = 0 then lastErr else errF (start + k - 1))).sleeps } := by
  intro k
  induction k with
  | zero =>
    intro start rest lastErr hstart h
    simp
  | succ k ih =>
    intro start rest lastErr hstart h
    have hj := h start (Nat.le_refl start) (by omega)
    have hstep : k + 1 + rest = (k + rest) + 1 := by omega
    rw [hstep]
    simp only [fetchLoop]
    rw [if_neg (by
      rintro ⟨h1, h2⟩
      rw [hj.2.1] at h2
      simp at h2)]
    simp only [hj.1, hj.2.2, Bool.false_eq_true, if_false, if_pos hstart]
    rw [ih (start + 1) rest (errF start) (by omega)
      (fun j hj1 hj2 => h j (by omega) (by omega))]
    have hif : (if k = 0 then errF start else errF (start + 1 + k - 1)) =
        errF (start + k) := by
      cases k with
      | zero => simp
      | succ n =>
        have harg : start + 1 + (n + 1) - 1 = start + (n + 1) := by omega
        simp [harg]
    have hidx : start + 1 + k = start + (k + 1) := by omega
    have hidx2 : start + (k + 1) - 1 = start + k := by omega
    rw [hif, hidx]
    have hif2 : (if k + 1 = 0 then lastErr else errF (start + (k + 1) - 1)) =
        errF (start + k) := by
      simp [hidx2]
    rw [hif2]
    simp only [RunResult.mk.injEq]
    refine ⟨trivial, by omega, ?_⟩
    have hmap : (List.range k).map (fun i => 2 ^ (start + 1 + i - 1)) =
        (List.range k).map ((fun i => 2 ^ (start + i - 1)) ∘ Nat.succ) := by
      apply List.map_congr_left
      intro i _
      have harg : start + 1 + i - 1 = start + (i + 1) - 1 := by omega
      simp [harg, Function.comp]
    rw [List.range_succ_eq_map, List.map_cons, List.map_map, ← hmap]
    simp

theorem fetchLoop_first_step (env : Nat → AttemptEnv) (ctxErr : String)
    (maxRetries n : Nat) (lastErr e : String)
    (hf : (env 0).fetch = Except.error e)
    (hca : (env 0).cancelledAfter = false) :
    fetchLoop env ctxErr maxRetries 0 (n + 1) lastErr =
      { result := (fetchLoop env ctxErr maxRetries 1 n e).result
        attempts := (fetchLoop env ctxErr maxRetries 1 n e).attempts + 1
        sleeps := (fetchLoop env ctxErr maxRetries 1 n e).sleeps } := by
  simp only [fetchLoop]
  rw [if_neg (by simp)]
  simp [hf, hca]

/-- C5: when every attempt fails and the context is never cancelled,
FetchCloudCosts performs exactly 1 + maxRetries fetch attempts, sleeping
exponential backoffs 1, 2, 4, ... time units before each retry, and returns
a single error that names the retry count and wraps the last underlying
cause. -/
theorem fetch_all_fail (env : Nat → AttemptEnv) (ctxErr : String)
    (maxRetries : Nat) (errF : Nat → String)
    (h : ∀ j, j ≤ maxRetries →
      (env j).fetch = Except.error (errF j) ∧
      (env j).cancelledBefore = false ∧ (env j).cancelledAfter = false) :
    FetchCloudCosts env ctxErr maxRetries =
      { result := Except.error ("after " ++ toString maxRetries ++
          " retries: " ++ errF maxRetries)
        attempts := maxRetries + 1
        sleeps := (List.range maxRetries).map (fun i => 2 ^ i) } := by
  unfold FetchCloudCosts
  have h0 := h 0 (Nat.zero_le maxRetries)
  rw [fetchLoop_first_step env ctxErr maxRetries maxRetries "" (errF 0)
    h0.1 h0.2.2]
  have hs := fetchLoop_skip env ctxErr maxRetries errF maxRetries 1 0
    (errF 0) Nat.one_pos (fun j h1 h2 => h j (by omega))
  simp only [Nat.add_zero] at hs
  rw [hs]
  have hif : (if maxRetries = 0 then errF 0 else errF (1 + maxRetries - 1)) =
      errF maxRetries := by
    cases maxRetries with
    | zero => simp
    | succ n =>
      have harg : 1 + (n + 1) - 1 = n + 1 := by omega
      simp [harg]
  simp only [fetchLoop, RunResult.mk.injEq]
  refine ⟨by rw [hif], by omega, ?_⟩
  simp only [List.append_nil]
  apply List.map_congr_left
  intro i _
  have harg : 1 + i - 1 = i := by omega
  rw [harg]

/-- An environment in which every attempt fails with a transport or status
error and the context never cancels. -/
def alwaysFailEnv : Nat → AttemptEnv :=
  fun _ => ⟨Except.error "status 500", false, false⟩

/-- Witness for C5: maxRetries 2 against an always-failing endpoint makes
exactly 3 attempts, sleeps 1 then 2 units, and wraps the cause after 2
retries. -/
theorem fetch_all_fail_witness :
    FetchCloudCosts alwaysFailEnv "context canceled" 2 =
      { result := Except.error "after 2 retries: status 500"
        attempts := 3
        sleeps := [1, 2] } := by
  have h := fetch_all_fail alwaysFailEnv "context canceled" 2
    (fun _ => "status 500") (fun j hj => ⟨rfl, rfl, rfl⟩)
  rw [h]
  rfl

/-- C9: a cancellation observed during the retry loop aborts it immediately
and surfaces the context error, not the last transport error.  Observed in
the backoff wait before attempt i, no further fetch happens: exactly i
fetches total.  Observed after a failed attempt i, no retry follows: exactly
i + 1 fetches total. -/
theorem fetch_cancellation_aborts (env : Nat → AttemptEnv) (ctxErr : String)
    (maxRetries i : Nat) (errF : Nat → String)
    (hprev : ∀ j, j < i →
      (env j).fetch = Except.error (errF j) ∧
      (env j).cancelledBefore = false ∧ (env j).cancelledAfter = false)
    (hi : i ≤ maxRetries) :
    (0 < i → (env i).cancelledBefore = true →
      FetchCloudCosts env ctxErr maxRetries =
        { result := Except.error ctxErr
          attempts := i
          sleeps := (List.range (i - 1)).map (fun j => 2 ^ j) }) ∧
    ((env i).cancelledBefore = false →
      ∀ e, (env i).fetch = Except.error e → (env i).cancelledAfter = true →
      FetchCloudCosts env ctxErr maxRetries =
        { result := Except.error ctxErr
          attempts := i + 1
          sleeps := (List.range i).map (fun j => 2 ^ j) }) := by
  constructor
  · intro hpos hcb
    unfold FetchCloudCosts
    have h0 := hprev 0 hpos
    rw [fetchLoop_first_step env ctxErr maxRetries maxRetries "" (errF 0)
      h0.1 h0.2.2]
    have hs := fetchLoop_skip env ctxErr maxRetries errF (i - 1) 1
      ((maxRetries - i) + 1) (errF 0) Nat.one_pos
      (fun j h1 h2 => hprev j (by omega))
    have hsplit : (i - 1) + ((maxRetries - i) + 1) = maxRetries := by omega
    rw [hsplit] at hs
    rw [hs]
    have hidx : 1 + (i - 1) = i := by omega
    rw [hidx]
    have hstop : ∀ le : String,
        fetchLoop env ctxErr maxRetries i ((maxRetries - i) + 1) le =
          { result := Except.error ctxErr, attempts := 0, sleeps := [] } := by
      intro le
      simp only [fetchLoop]
      rw [if_pos ⟨hpos, hcb⟩]
    rw [hstop _]
    simp only [RunResult.mk.injEq]
    refine ⟨trivial, by omega, ?_⟩
    simp only [List.append_nil]
    apply List.map_congr_left
    intro j _
    have harg : 1 + j - 1 = j := by omega
    rw [harg]
  · intro hcb e hf hca
    rcases Nat.eq_zero_or_pos i with hz | hpos
    · subst hz
      unfold FetchCloudCosts
      simp only [fetchLoop]
      rw [if_neg (by simp)]
      simp [hf, hca]
    · unfold FetchCloudCosts
      have h0 := hprev 0 hpos
      rw [fetchLoop_first_step env ctxErr maxRetries maxRetries "" (errF 0)
        h0.1 h0.2.2]
      have hs := fetchLoop_skip env ctxErr maxRetries errF (i - 1) 1
        ((maxRetries - i) + 1) (errF 0) Nat.one_pos
        (fun j h1 h2 => hprev j (by omega))
      have hsplit : (i - 1) + ((maxRetries - i) + 1) = maxRetries := by omega
      rw [hsplit] at hs
      rw [hs]
      have hidx : 1 + (i - 1) = i := by omega
      rw [hidx]
      have hstop : ∀ le : String,
          fetchLoop env ctxErr maxRetries i ((maxRetries - i) + 1) le =
            { result := Except.error ctxErr, attempts := 1
              sleeps := [2 ^ (i - 1)] } := by
        intro le
        simp only [fetchLoop]
        rw [if_neg (by
          rintro ⟨h1, h2⟩
          rw [hcb] at h2
          simp at h2)]
        simp [hf, hca, hpos]
      rw [hstop _]
      simp only [RunResult.mk.injEq]
      refine ⟨trivial, by omega, ?_⟩
      have hri : List.range i = List.range ((i - 1) + 1) := by
        congr 1
        omega
      rw [hri, List.range_succ, List.map_append]
      simp only [List.map_cons, List.map_nil]
      have hmap : (List.range (i - 1)).map (fun j => 2 ^ (1 + j - 1)) =
          (List.range (i - 1)).map (fun j => 2 ^ j) := by
        apply List.map_congr_left
        intro j _
        have harg : 1 + j - 1 = j := by omega
        rw [harg]
      rw [hmap]

/-- Environment where the context fires during the backoff before attempt 1,
after a clean failure of attempt 0. -/
def cancelEnvBefore : Nat → AttemptEnv :=
  fun j => if j = 0 then ⟨Except.error "boom", false, false⟩
    else ⟨Except.error "boom", true, false⟩

/-- Environment where ctx.Err() turns non-nil right after attempt 1 fails. -/
def cancelEnvAfter : Nat → AttemptEnv :=
  fun j => if j = 0 then ⟨Except.error "boom", false, false⟩
    else ⟨Except.error "boom", false, true⟩

/-- Witness for C9: with maxRetries 5, cancellation before attempt 1 stops
after exactly 1 fetch with no sleep; cancellation after attempt 1 stops
after exactly 2 fetches and one unit backoff; both surface the context
error. -/
theorem fetch_cancellation_aborts_witness :
    FetchCloudCosts cancelEnvBefore "context canceled" 5 =
      { result := Except.error "context canceled", attempts := 1
        sleeps := [] } ∧
    FetchCloudCosts cancelEnvAfter "context canceled" 5 =
      { result := Except.error "context canceled", attempts := 2
        sleeps := [1] } := by
  constructor
  · have h := (fetch_cancellation_aborts cancelEnvBefore "context canceled"
      5 1 (fun _ => "boom")
      (by
        intro j hj
        have hj0 : j = 0 := by omega
        subst hj0
        exact ⟨rfl, rfl, rfl⟩)
      (by omega)).1 (by omega) rfl
    rw [h]
    exact rfl
  · have h := (fetch_cancellation_aborts cancelEnvAfter "context canceled"
      5 1 (fun _ => "boom")
      (by
        intro j hj
        have hj0 : j = 0 := by omega
        subst hj0
        exact ⟨rfl, rfl, rfl⟩)
      (by omega)).2 rfl "boom" rfl rfl
    rw [h]
    exact rfl

end OpenCostExporter
